import Mathlib

/-!
Verification of the Sentinel-Net RWPV consensus core against its
natural-language specification.

The development shallowly embeds the Python modules
`backend/consensus/voting.py`, `backend/shared/utils.py` and
`backend/consensus/engine.py`.  Python dicts are modelled as
insertion-ordered association lists (CPython dicts preserve insertion
order); floats are modelled as rationals, so every arithmetic statement
is exact; exceptions are modelled with explicit error values, and a
mutating method that can fail mid-way returns the (possibly already
mutated) state together with the error, mirroring CPython in-place
mutation semantics.
-/

/-- Agent identifiers are opaque strings. -/
abbrev AgentId := String

/-- Lookup of a key in an insertion-ordered association list, the model of
Python `d[k]` / `d.get(k)` (returns the value of the unique matching key;
keys of a real dict are distinct). -/
def dget? {α β : Type} [DecidableEq α] : List (α × β) → α → Option β
  | [], _ => none
  | (k, v) :: rest, a => if k = a then some v else dget? rest a

/-- Model of Python dict assignment `d[k] = v`: overwrite the first matching
key in place, otherwise append the new key (insertion order). -/
def dset {α β : Type} [DecidableEq α] : List (α × β) → α → β → List (α × β)
  | [], a, x => [(a, x)]
  | (k, v) :: rest, a, x =>
      if k = a then (k, x) :: rest else (k, v) :: dset rest a x

/-- Model of the Python idiom `if k not in d: d[k] = 0.0` followed by
`d[k] += x`: add `x` to the entry of `k`, appending a fresh entry holding
`x` when the key is absent. -/
def daccum {α : Type} [DecidableEq α] : List (α × ℚ) → α → ℚ → List (α × ℚ)
  | [], a, x => [(a, x)]
  | (k, v) :: rest, a, x =>
      if k = a then (k, v + x) :: rest else (k, v) :: daccum rest a x

/-- Keys of an association list, in order (Python `d.keys()`). -/
def dkeys {α β : Type} (d : List (α × β)) : List α := d.map Prod.fst

/-- Sum of the values of an association list (Python `sum(d.values())`). -/
def vsum {α : Type} (d : List (α × ℚ)) : ℚ := (d.map Prod.snd).sum

/-- Model of Python `max(d, key=d.get)` over an insertion-ordered dict:
the first key, in iteration order, whose value is maximal (`max` keeps the
earliest element and replaces it only on a strictly greater key value). -/
def argmaxFirst {α β : Type} [LinearOrder β] (d : List (α × β)) : Option α :=
  (d.foldl
    (fun acc p =>
      match acc with
      | none => some p
      | some q => if p.2 > q.2 then some p else some q)
    none).map Prod.fst

/-- Insertion into an ascending list of labels. -/
def insertAsc (x : ℤ) : List ℤ → List ℤ
  | [] => [x]
  | y :: ys => if x ≤ y then x :: y :: ys else y :: insertAsc x ys

/-- Ascending insertion sort on labels. -/
def sortAsc (l : List ℤ) : List ℤ := l.foldr insertAsc []

/-- Deduplication keeping one occurrence of each element (which occurrence
survives is irrelevant here because the result is sorted afterwards). -/
def dedupKeepLast : List ℤ → List ℤ
  | [] => []
  | x :: xs => if x ∈ xs then dedupKeepLast xs else x :: dedupKeepLast xs

/-- Model of iterating CPython `set(classes)` for the small non-negative
int labels used by this program (classes are 0/1): CPython hashes a small
int to itself, so the set enumerates such labels in ascending order.  The
model deduplicates and sorts ascending. -/
def pySetAsc (l : List ℤ) : List ℤ := sortAsc (dedupKeepLast l)

/-- Model of `np.clip(x, lo, hi) = minimum(hi, maximum(lo, x))`. -/
def clip (x lo hi : ℚ) : ℚ := min (max x lo) hi

/-- Built-in Python exceptions raised by the consensus engine paths, plus
the consensus-specific exception the source tries to raise.  The latter is
modelled abstractly here; whether the name `ConsensusError` is actually
bound by the module the source imports it from is settled separately. -/
inductive PyErr : Type where
  | valueError : PyErr
  | keyError : AgentId → PyErr
  | zeroDivisionError : PyErr
  | consensusError : String → PyErr
deriving DecidableEq

/-- Truth test for an `Except` being a success. -/
def isOk {ε α : Type} : Except ε α → Bool
  | .ok _ => true
  | .error _ => false

/-- Error value carried by an `Except`, when there is one. -/
def errOf {ε α : Type} : Except ε α → Option ε
  | .ok _ => none
  | .error e => some e

-- Basic dictionary lemmas

theorem dget?_dset_same {α β : Type} [DecidableEq α] (d : List (α × β)) (a : α) (x : β) :
    dget? (dset d a x) a = some x := by
  induction d with
  | nil => simp [dset, dget?]
  | cons p rest ih =>
      obtain ⟨k, v⟩ := p
      by_cases h : k = a
      · simp [dset, dget?, h]
      · simp [dset, dget?, h, ih]

theorem dget?_dset_other {α β : Type} [DecidableEq α] (d : List (α × β)) (a b : α) (x : β)
    (hab : a ≠ b) : dget? (dset d a x) b = dget? d b := by
  induction d with
  | nil => simp [dset, dget?, hab]
  | cons p rest ih =>
      obtain ⟨k, v⟩ := p
      by_cases h : k = a
      · subst h
        simp [dset, dget?, hab]
      · simp [dset, dget?, h, ih]

theorem dget?_some_mem {α β : Type} [DecidableEq α] {d : List (α × β)} {a : α} {v : β}
    (h : dget? d a = some v) : (a, v) ∈ d := by
  induction d with
  | nil => simp [dget?] at h
  | cons p rest ih =>
      obtain ⟨k, w⟩ := p
      by_cases hk : k = a
      · subst hk
        simp [dget?] at h
        simp [h]
      · simp [dget?, hk] at h
        exact List.mem_cons_of_mem _ (ih h)

theorem dget?_isSome_of_mem {α β : Type} [DecidableEq α] {d : List (α × β)} {a : α}
    (h : a ∈ dkeys d) : (dget? d a).isSome := by
  induction d with
  | nil => simp [dkeys] at h
  | cons p rest ih =>
      obtain ⟨k, w⟩ := p
      by_cases hk : k = a
      · simp [dget?, hk]
      · have h2 : a ∈ dkeys rest := by
          rcases List.mem_cons.mp h with h1 | h1
          · exact absurd h1.symm hk
          · exact h1
        simpa [dget?, hk] using ih h2

theorem mem_dkeys_of_dget?_some {α β : Type} [DecidableEq α] {d : List (α × β)} {a : α} {v : β}
    (h : dget? d a = some v) : a ∈ dkeys d := by
  have := dget?_some_mem h
  exact List.mem_map.mpr ⟨(a, v), this, rfl⟩

theorem dget?_of_nodup_mem {α β : Type} [DecidableEq α] {d : List (α × β)} {a : α} {v : β}
    (hnd : (dkeys d).Nodup) (hmem : (a, v) ∈ d) : dget? d a = some v := by
  induction d with
  | nil => simp at hmem
  | cons p rest ih =>
      obtain ⟨k, w⟩ := p
      have hnd2 : k ∉ rest.map Prod.fst ∧ (rest.map Prod.fst).Nodup :=
        List.nodup_cons.mp hnd
      rcases List.mem_cons.mp hmem with h | h
      · cases h
        simp [dget?]
      · have hka : k ≠ a := by
          intro hk
          subst hk
          exact hnd2.1 (List.mem_map.mpr ⟨(k, v), h, rfl⟩)
        simpa [dget?, hka] using ih hnd2.2 h

-- Embedding of backend/consensus/voting.py

/-- Result record of `WeightedVoter.vote` (class `VotingResult`). -/
structure VotingResult : Type where
  predicted_class : ℤ
  confidence : ℚ
  votes_per_class : List (ℤ × ℚ)
  weight_distribution : List (AgentId × ℚ)
deriving DecidableEq

/-- Keyset-equality precondition checked by `WeightedVoter.vote`
(`set(predictions.keys()) != set(weights.keys())`). -/
def sameKeySets {β γ : Type} (p : List (AgentId × β)) (w : List (AgentId × γ)) : Prop :=
  (∀ k ∈ dkeys p, k ∈ dkeys w) ∧ (∀ k ∈ dkeys w, k ∈ dkeys p)

instance {β γ : Type} (p : List (AgentId × β)) (w : List (AgentId × γ)) :
    Decidable (sameKeySets p w) := by
  unfold sameKeySets
  infer_instance

/-- Shared shape of the per-class score accumulation loop of both voting
implementations: for each vote, in dict order, add
`weight[agent] * confidence` to the score of the voted class.
`WeightedVoter.vote` reads `weights[agent_name]` under a guard that makes
the key always present (rendered as default 0, never taken), while
`compute_weighted_vote` uses `weights.get(agent_name, 1.0)` (default 1). -/
def weightedScores (default_weight : ℚ) (predictions : List (AgentId × ℤ × ℚ))
    (weights : List (AgentId × ℚ)) : List (ℤ × ℚ) :=
  predictions.foldl
    (fun m p => daccum m p.2.1 ((dget? weights p.1).getD default_weight * p.2.2)) []

namespace WeightedVoter

/-- Embedding of `WeightedVoter.vote` (voting.py lines 25-70).  A vote map
entry is `(agent_name, (predicted_class, confidence))`.  The raised
`ConsensusError` messages are modelled as string error values.  Inside the
guarded branch `weights[agent_name]` cannot fail, so the lookup is written
with a default that is never taken. -/
def vote (predictions : List (AgentId × ℤ × ℚ)) (weights : List (AgentId × ℚ)) :
    Except String VotingResult :=
  if predictions = [] then
    .error "No predictions provided"
  else if sameKeySets predictions weights then
    let votes_per_class : List (ℤ × ℚ) := weightedScores 0 predictions weights
    let final_class : ℤ := (argmaxFirst votes_per_class).getD 0
    let total_votes : ℚ := vsum votes_per_class
    let confidence : ℚ :=
      if total_votes > 0 then (dget? votes_per_class final_class).getD 0 / total_votes else 0
    .ok ⟨final_class, confidence, votes_per_class, weights⟩
  else
    .error "Agent names in predictions and weights do not match"

end WeightedVoter

-- Embedding of backend/shared/utils.py

/-- Embedding of `compute_weighted_vote` (utils.py lines 76-111), the voting
routine `ConsensusEngine.predict` actually calls.  Note the differences from
`WeightedVoter.vote` taken verbatim from the source: no validation at all, a
missing weight key defaults to 1.0 (`weights.get(agent_name, 1.0)`), an empty
input returns `(0, 0.5)`, a zero total gives confidence 0.5, and the final
confidence is `min(normalized_confidence, 1.0)`. -/
def compute_weighted_vote (predictions : List (AgentId × ℤ × ℚ))
    (weights : List (AgentId × ℚ)) : ℤ × ℚ :=
  let weighted_votes : List (ℤ × ℚ) := weightedScores 1 predictions weights
  if weighted_votes = [] then (0, 1/2)
  else
    let final_prediction : ℤ := (argmaxFirst weighted_votes).getD 0
    let confidence : ℚ := (dget? weighted_votes final_prediction).getD 0
    let total_weight : ℚ := vsum weighted_votes
    let normalized_confidence : ℚ :=
      if total_weight > 0 then confidence / total_weight else 1/2
    (final_prediction, min normalized_confidence 1)

/-- Total weighted score of a vote map, `Σ weight[a] * confidence[a]`, with
the same 1.0 default for a missing weight that `compute_weighted_vote` uses. -/
def totalWeightedScore (predictions : List (AgentId × ℤ × ℚ))
    (weights : List (AgentId × ℚ)) : ℚ :=
  (predictions.map (fun p => (dget? weights p.1).getD 1 * p.2.2)).sum

-- Embedding of backend/consensus/engine.py

/-- Constructor parameters of `ConsensusEngine.__init__` with their default
values (floats rendered as exact rationals: 1.05, 0.90, 1.15, 0.85, 0.1,
5.0, 0.5). -/
structure EngineParams : Type where
  weight_reward_correct : ℚ := 21/20
  weight_penalty_wrong : ℚ := 9/10
  weight_reward_minority : ℚ := 23/20
  weight_penalty_both_wrong : ℚ := 17/20
  weight_min : ℚ := 1/10
  weight_max : ℚ := 5
  consensus_threshold : ℚ := 1/2
deriving DecidableEq

/-- Default engine parameters. -/
def defaultParams : EngineParams := {}

/-- One element of `self.prediction_history` (the dict appended by
`update_weights_from_feedback`; the wall-clock timestamp field carries no
logic and is omitted). -/
structure HistoryEntry : Type where
  true_label : ℤ
  majority_class : ℤ
  predictions : List (AgentId × ℤ × ℚ)
  weights_after : List (AgentId × ℚ)
deriving DecidableEq

/-- Mutable state of a `ConsensusEngine` instance: the constructor
parameters, the keys of `self.agents` (the agent objects themselves are
external collaborators; only their names matter to the weight logic),
`self.weights` and `self.prediction_history`. -/
structure EngineState : Type where
  params : EngineParams
  agents : List AgentId
  weights : List (AgentId × ℚ)
  history : List HistoryEntry
deriving DecidableEq

namespace ConsensusEngine

/-- Embedding of `ConsensusEngine.__init__`: weights start at 1.0 for every
agent and the history is empty. -/
def init (agents : List AgentId) (p : EngineParams) : EngineState :=
  { params := p
    agents := agents
    weights := agents.map (fun n => (n, 1))
    history := [] }

/-- Embedding of `ConsensusEngine._get_majority_prediction`:
`max(set(classes), key=classes.count)`, which raises the built-in
`ValueError` on an empty sequence.  Set iteration follows `pySetAsc`
(ascending, the CPython order for the small non-negative int labels this
program uses), and `max` keeps the first maximal element. -/
def getMajorityPrediction (predictions : List (AgentId × ℤ × ℚ)) : Except PyErr ℤ :=
  let classes : List ℤ := predictions.map (fun p => p.2.1)
  match argmaxFirst ((pySetAsc classes).map (fun c => (c, classes.count c))) with
  | some c => .ok c
  | none => .error .valueError

/-- Embedding of the per-agent loop of `update_weights_from_feedback`
(engine.py lines 160-183): for each vote, in dict order, pick the multiplier
from the four-way if/elif chain of the source, multiply the agent weight in
place and clamp with `np.clip`.  Reading `self.weights[agent_name]` for an
unknown agent raises `KeyError`, leaving the updates already performed in
place, exactly as CPython does. -/
def clampLoop (p : EngineParams) (true_label majority_class : ℤ) :
    List (AgentId × ℤ × ℚ) → List (AgentId × ℚ) → List (AgentId × ℚ) × Option PyErr
  | [], w => (w, none)
  | (agent_name, predicted_class, _confidence) :: rest, w =>
    match dget? w agent_name with
    | none => (w, some (.keyError agent_name))
    | some cur =>
      let agent_correct : Bool := predicted_class = true_label
      let majority_correct : Bool := majority_class = true_label
      let multiplier : ℚ :=
        if agent_correct && majority_correct then p.weight_reward_correct
        else if agent_correct && !majority_correct then p.weight_reward_minority
        else if !agent_correct && majority_correct then p.weight_penalty_wrong
        else p.weight_penalty_both_wrong
      clampLoop p true_label majority_class rest
        (dset w agent_name (clip (cur * multiplier) p.weight_min p.weight_max))

/-- Embedding of the renormalization loop of `update_weights_from_feedback`
(engine.py lines 185-189): every key of `self.weights` is rescaled in place
by `w / weight_sum * num_agents`, with `weight_sum` read once before the
loop. -/
def renormalize (w : List (AgentId × ℚ)) (num_agents : ℚ) : List (AgentId × ℚ) :=
  w.map (fun q => (q.1, q.2 / vsum w * num_agents))

/-- Embedding of `ConsensusEngine.update_weights_from_feedback`
(engine.py lines 141-199): majority computation, per-agent reward/penalty
with clamping, renormalization of every tracked weight by
`w / weight_sum * num_agents` (with `num_agents = len(self.agents)`),
history append.  The function returns the post-call state together with the
outcome; on an exception the state holds whatever mutations had already
happened, as in Python.  A zero `weight_sum` raises `ZeroDivisionError` at
the first division of the renormalization loop, hence only when the weight
map is non-empty. -/
def update_weights_from_feedback (s : EngineState) (true_label : ℤ)
    (predictions : List (AgentId × ℤ × ℚ)) :
    EngineState × Except PyErr (List (AgentId × ℚ)) :=
  match getMajorityPrediction predictions with
  | .error e => (s, .error e)
  | .ok majority_class =>
    match clampLoop s.params true_label majority_class predictions s.weights with
    | (w1, some e) => ({ s with weights := w1 }, .error e)
    | (w1, none) =>
      if vsum w1 = 0 ∧ w1 ≠ [] then
        ({ s with weights := w1 }, .error .zeroDivisionError)
      else
        let w2 : List (AgentId × ℚ) := renormalize w1 (s.agents.length : ℚ)
        let entry : HistoryEntry :=
          { true_label := true_label
            majority_class := majority_class
            predictions := predictions
            weights_after := w2 }
        ({ s with weights := w2, history := s.history ++ [entry] }, .ok w2)

/-- Embedding of `ConsensusEngine.reset_weights`: every tracked agent back
to 1.0; nothing else is touched. -/
def reset_weights (s : EngineState) : EngineState :=
  { s with weights := s.agents.map (fun n => (n, 1)) }

/-- Embedding of `ConsensusEngine.set_weight`: unknown agents raise
`ConsensusError`, known agents get the value clamped by `np.clip`. -/
def set_weight (s : EngineState) (agent_name : AgentId) (weight : ℚ) :
    EngineState × Except PyErr Unit :=
  if agent_name ∈ s.agents then
    let clamped : ℚ := clip weight s.params.weight_min s.params.weight_max
    ({ s with weights := dset s.weights agent_name clamped }, .ok ())
  else
    (s, .error (.consensusError "Unknown agent"))

/-- Embedding of `ConsensusEngine.get_weights` (returns a copy of
`self.weights`; copying is the identity in a value model). -/
def get_weights (s : EngineState) : List (AgentId × ℚ) := s.weights

/-- Reputation record returned by `ConsensusEngine.get_agent_reputation`. -/
structure AgentRep : Type where
  agent_name : AgentId
  total_predictions : ℕ
  accuracy : ℚ
  current_weight : ℚ
  confidence_avg : ℚ
deriving DecidableEq

/-- Embedding of `ConsensusEngine.get_agent_reputation` (engine.py lines
211-250): statistics are derived from `self.prediction_history`; the
source zips the valid predictions positionally against the true labels of
all history entries, which is kept verbatim here. -/
def get_agent_reputation (s : EngineState) (agent_name : AgentId) :
    Except PyErr AgentRep :=
  if agent_name ∈ s.agents then
    let agent_predictions : List (Option (ℤ × ℚ)) :=
      (s.history.filter (fun h => (dget? h.predictions agent_name).isSome)).map
        (fun h => dget? h.predictions agent_name)
    if agent_predictions = [] then
      match dget? s.weights agent_name with
      | none => .error (.keyError agent_name)
      | some w => .ok ⟨agent_name, 0, 0, w, 0⟩
    else
      let predictions_valid : List (ℤ × ℚ) := agent_predictions.reduceOption
      let true_labels : List ℤ := s.history.map (fun h => h.true_label)
      let correct : ℕ :=
        ((predictions_valid.zip true_labels).filter (fun q => q.1.1 = q.2)).length
      let confidences : List ℚ := predictions_valid.map (fun q => q.2)
      match dget? s.weights agent_name with
      | none => .error (.keyError agent_name)
      | some w =>
        .ok ⟨agent_name, predictions_valid.length,
          if predictions_valid.length = 0 then 0
            else (correct : ℚ) / predictions_valid.length,
          w,
          if confidences.length = 0 then 0
            else confidences.sum / confidences.length⟩
  else
    .error (.consensusError "Unknown agent")

/-- Voting path of `ConsensusEngine.predict` (engine.py lines 108-112):
once the per-agent predictions are collected from the external agent
collaborators, the final decision is `compute_weighted_vote` on the current
weight map — the `WeightedVoter` class is not on this path. -/
def predictVote (s : EngineState) (agent_predictions : List (AgentId × ℤ × ℚ)) : ℤ × ℚ :=
  compute_weighted_vote agent_predictions s.weights

end ConsensusEngine

-- Embedding of backend/shared/exceptions_v2.py

/-- Names bound at module top level by `backend/shared/exceptions_v2.py`, in
source order: fifteen class statements and the single alias assignment
`DatabaseError = DatabaseException` at the end of the file. -/
def exceptionsV2ModuleNames : List String :=
  ["SentinelNetException", "DataException", "DataLoadingError",
   "DataPreprocessingError", "DataValidationError", "ModelException",
   "ModelTrainingError", "ModelPredictionError", "AgentException",
   "ConsensusException", "ConsensusVotingError", "ReputationError",
   "WeightUpdateError", "ConfigException", "DatabaseException",
   "DatabaseError"]

-- Claim C10

/-- C10: the name `ConsensusError` that voting.py and engine.py import from
`backend.shared.exceptions_v2` is NOT among the names bound by that module
(which does bind `ConsensusException`), so the claim that the import target
exists and raising it cannot fail is contradicted by the code: the
module-level import itself raises `ImportError`. -/
theorem C10_consensus_error_name_unbound :
    "ConsensusError" ∉ exceptionsV2ModuleNames ∧
    "ConsensusException" ∈ exceptionsV2ModuleNames := by
  decide

-- Claim C1, counterexample

/-- Engine reached by the public-operation sequence of the C1
counterexample: two agents, then `set_weight("a", 5.0)` and
`set_weight("b", 0.1)` (both values at the clamp bounds, hence accepted
verbatim). -/
def c1Engine : EngineState :=
  (ConsensusEngine.set_weight
    ((ConsensusEngine.set_weight (ConsensusEngine.init ["a", "b"] defaultParams) "a" 5).1)
    "b" (1/10)).1

/-- Post-state and result of the feedback call of the C1 counterexample:
both agents vote the true class, so both are multiplied by 1.05 and
clamped, giving weights 5 and 21/200; renormalization to sum 2 then drops
agent b to 42/1021 < 1/10. -/
def c1After : EngineState × Except PyErr (List (AgentId × ℚ)) :=
  ConsensusEngine.update_weights_from_feedback c1Engine 0 [("a", (0, 1)), ("b", (0, 1))]

/-- C1, counterexample: a sequence of public operations (construction, two
`SetWeight` calls, one successful `RecordFeedback`) ends in an observable
state in which agent b has weight 42/1021, strictly below
`weight_min = 1/10`; the claimed invariant `weight_min ≤ weight` fails. -/
theorem C1_weight_bounds_counterexample :
    isOk c1After.2 = true
    ∧ dget? c1After.1.weights "b" = some (42/1021)
    ∧ ((42 : ℚ)/1021 < defaultParams.weight_min) := by
  refine ⟨?_, ?_, ?_⟩ <;>
    (simp [c1After, c1Engine, ConsensusEngine.update_weights_from_feedback, ConsensusEngine.set_weight,
      ConsensusEngine.init, ConsensusEngine.getMajorityPrediction, ConsensusEngine.clampLoop,
      ConsensusEngine.renormalize, ConsensusEngine.predictVote, defaultParams, clip, pySetAsc,
      sortAsc, insertAsc, dedupKeepLast, argmaxFirst, daccum, dget?, dset, vsum, isOk, errOf,
      WeightedVoter.vote, compute_weighted_vote, weightedScores, sameKeySets, dkeys, min_def, max_def]) <;>
    (try norm_num) <;> (try simp [dget?])

-- Claim C4, counterexample

/-- C4, counterexample: with votes a ↦ (1, 0.9), b ↦ (0, 0.9) and equal
weights the two classes receive exactly equal weighted scores 9/10, yet
`WeightedVoter.vote` selects class 1 — the class first inserted into the
score dict, not the lower label 0. -/
theorem C4_tie_break_counterexample :
    (WeightedVoter.vote [("a", (1, 9/10)), ("b", (0, 9/10))] [("a", 1), ("b", 1)]).toOption.map
        (fun r => (r.predicted_class, dget? r.votes_per_class 0, dget? r.votes_per_class 1))
      = some (1, some (9/10), some (9/10))
    ∧ (0 : ℤ) < 1 := by
  refine ⟨?_, by norm_num⟩
  simp [ConsensusEngine.update_weights_from_feedback, ConsensusEngine.set_weight,
      ConsensusEngine.init, ConsensusEngine.getMajorityPrediction, ConsensusEngine.clampLoop,
      ConsensusEngine.renormalize, ConsensusEngine.predictVote, defaultParams, clip, pySetAsc,
      sortAsc, insertAsc, dedupKeepLast, argmaxFirst, daccum, dget?, dset, vsum, isOk, errOf,
      WeightedVoter.vote, compute_weighted_vote, weightedScores, sameKeySets, dkeys, min_def, max_def, Except.toOption] <;> norm_num

-- Claim C5, counterexample

/-- C5, counterexample: with all confidences zero (total weighted score 0)
and votes a ↦ (1, 0), b ↦ (0, 0), `WeightedVoter.vote` returns class 1 —
the first-inserted class, not the numerically smallest label 0 — and the
voting path used by `ConsensusEngine.predict` (`compute_weighted_vote`)
returns confidence 1/2, not the claimed 0. -/
theorem C5_zero_total_counterexample :
    (WeightedVoter.vote [("a", (1, 0)), ("b", (0, 0))] [("a", 1), ("b", 1)]).toOption.map
        (fun r => (r.predicted_class, r.confidence)) = some (1, 0)
    ∧ compute_weighted_vote [("a", (1, 0)), ("b", (0, 0))] [("a", 1), ("b", 1)] = (1, 1/2) := by
  constructor <;> (simp [ConsensusEngine.update_weights_from_feedback, ConsensusEngine.set_weight,
      ConsensusEngine.init, ConsensusEngine.getMajorityPrediction, ConsensusEngine.clampLoop,
      ConsensusEngine.renormalize, ConsensusEngine.predictVote, defaultParams, clip, pySetAsc,
      sortAsc, insertAsc, dedupKeepLast, argmaxFirst, daccum, dget?, dset, vsum, isOk, errOf,
      WeightedVoter.vote, compute_weighted_vote, weightedScores, sameKeySets, dkeys, min_def, max_def, Except.toOption]) <;> norm_num

-- Claim C6, counterexample

/-- C6, counterexample: the voting path `ConsensusEngine.predict` uses is
`compute_weighted_vote`, and it performs no validation at all: an empty
vote map returns the value (0, 1/2) instead of failing, and a key-set
mismatch silently uses the default weight 1.0 (here class 0 wins only
because the missing agent a was given weight 1.0). -/
theorem C6_no_validation_on_predict_path_counterexample :
    ConsensusEngine.predictVote (ConsensusEngine.init ["a", "b"] defaultParams) [] = (0, 1/2)
    ∧ compute_weighted_vote [("a", (0, 1/2)), ("b", (1, 1))] [("b", 1/4)] = (0, 2/3) := by
  constructor <;> (simp [ConsensusEngine.update_weights_from_feedback, ConsensusEngine.set_weight,
      ConsensusEngine.init, ConsensusEngine.getMajorityPrediction, ConsensusEngine.clampLoop,
      ConsensusEngine.renormalize, ConsensusEngine.predictVote, defaultParams, clip, pySetAsc,
      sortAsc, insertAsc, dedupKeepLast, argmaxFirst, daccum, dget?, dset, vsum, isOk, errOf,
      WeightedVoter.vote, compute_weighted_vote, weightedScores, sameKeySets, dkeys, min_def, max_def]) <;> norm_num

-- Claim C7, counterexample

/-- Feedback call of the C7 counterexample: a fresh two-agent engine
receives votes for its agent a and for an unknown agent u. -/
def c7After : EngineState × Except PyErr (List (AgentId × ℚ)) :=
  ConsensusEngine.update_weights_from_feedback
    (ConsensusEngine.init ["a", "b"] defaultParams) 0
    [("a", (0, 9/10)), ("u", (0, 9/10))]

/-- C7, counterexample: a `RecordFeedback` call whose votes reference the
unknown agent id u fails with the built-in `KeyError` (not a
`ValidationError`), and the failure does NOT leave the engine state
unchanged: agent a, processed before the unknown id, keeps its already
multiplied-and-clamped weight 21/20 in the post-call state. -/
theorem C7_validation_failure_mutates_state_counterexample :
    errOf c7After.2 = some (.keyError "u")
    ∧ dget? c7After.1.weights "a" = some (21/20)
    ∧ c7After.1 ≠ ConsensusEngine.init ["a", "b"] defaultParams := by
  refine ⟨?_, ?_, ?_⟩ <;>
    (simp [c7After, ConsensusEngine.update_weights_from_feedback, ConsensusEngine.set_weight,
      ConsensusEngine.init, ConsensusEngine.getMajorityPrediction, ConsensusEngine.clampLoop,
      ConsensusEngine.renormalize, ConsensusEngine.predictVote, defaultParams, clip, pySetAsc,
      sortAsc, insertAsc, dedupKeepLast, argmaxFirst, daccum, dget?, dset, vsum, isOk, errOf,
      WeightedVoter.vote, compute_weighted_vote, weightedScores, sameKeySets, dkeys, min_def, max_def, EngineState.mk.injEq]) <;> norm_num

-- Lemmas about np.clip and the reward/penalty loop

theorem clip_bounds {x lo hi : ℚ} (h : lo ≤ hi) :
    lo ≤ clip x lo hi ∧ clip x lo hi ≤ hi := by
  unfold clip
  exact ⟨le_min (le_max_right x lo) h, min_le_right _ _⟩

theorem clampLoop_frame (p : EngineParams) (tl mc : ℤ) (votes : List (AgentId × ℤ × ℚ))
    (w : List (AgentId × ℚ)) (a : AgentId) (ha : a ∉ dkeys votes) :
    dget? (ConsensusEngine.clampLoop p tl mc votes w).1 a = dget? w a := by
  induction votes generalizing w with
  | nil => simp [ConsensusEngine.clampLoop]
  | cons v rest ih =>
      obtain ⟨b, pc, conf⟩ := v
      have hab : ¬ a = b := by
        intro h
        exact ha (List.mem_cons.mpr (Or.inl h))
      have harest : a ∉ dkeys rest := by
        intro h
        exact ha (List.mem_cons.mpr (Or.inr h))
      cases hw : dget? w b with
      | none => simp [ConsensusEngine.clampLoop, hw]
      | some cur =>
          simp only [ConsensusEngine.clampLoop, hw]
          rw [ih _ harest, dget?_dset_other _ b a _ (fun h => hab h.symm)]

theorem clampLoop_present (p : EngineParams) (tl mc : ℤ) (votes : List (AgentId × ℤ × ℚ))
    (w : List (AgentId × ℚ)) (a : AgentId)
    (hok : (ConsensusEngine.clampLoop p tl mc votes w).2 = none) (ha : a ∈ dkeys votes) :
    (dget? w a).isSome := by
  induction votes generalizing w with
  | nil => simp [dkeys] at ha
  | cons v rest ih =>
      obtain ⟨b, pc, conf⟩ := v
      cases hw : dget? w b with
      | none => simp [ConsensusEngine.clampLoop, hw] at hok
      | some cur =>
          simp only [ConsensusEngine.clampLoop, hw] at hok
          rcases List.mem_cons.mp ha with h | h
          · subst h
            simp [hw]
          · have := ih _ hok h
            by_cases hab : b = a
            · subst hab
              simp [hw]
            · rwa [dget?_dset_other _ b a _ hab] at this

theorem clampLoop_get (p : EngineParams) (tl mc : ℤ) (votes : List (AgentId × ℤ × ℚ))
    (w : List (AgentId × ℚ)) (a : AgentId) (pc : ℤ) (conf cur : ℚ)
    (hnd : (dkeys votes).Nodup)
    (hv : dget? votes a = some (pc, conf))
    (hw : dget? w a = some cur)
    (hok : (ConsensusEngine.clampLoop p tl mc votes w).2 = none) :
    dget? (ConsensusEngine.clampLoop p tl mc votes w).1 a =
      some (clip (cur *
          (if pc = tl then
            (if mc = tl then p.weight_reward_correct else p.weight_reward_minority)
           else
            (if mc = tl then p.weight_penalty_wrong else p.weight_penalty_both_wrong)))
        p.weight_min p.weight_max) := by
  induction votes generalizing w with
  | nil => simp [dget?] at hv
  | cons v rest ih =>
      obtain ⟨b, pcb, confb⟩ := v
      have hnd2 : b ∉ dkeys rest ∧ (dkeys rest).Nodup := List.nodup_cons.mp hnd
      by_cases hba : b = a
      · subst hba
        have hpc : pcb = pc ∧ confb = conf := by
          simpa [dget?] using hv
        obtain ⟨rfl, rfl⟩ := hpc
        cases hwb : dget? w b with
        | none => rw [hwb] at hw; cases hw
        | some curb =>
            have hcur : curb = cur := by
              rw [hwb] at hw; exact (Option.some.injEq _ _ ▸ hw).symm ▸ rfl
            subst hcur
            simp only [ConsensusEngine.clampLoop, hwb]
            rw [clampLoop_frame _ _ _ _ _ _ hnd2.1, dget?_dset_same]
            by_cases h1 : pcb = tl <;> by_cases h2 : mc = tl <;> simp [h1, h2]
      · have hv' : dget? rest a = some (pc, conf) := by
          simpa [dget?, hba] using hv
        cases hwb : dget? w b with
        | none => simp [ConsensusEngine.clampLoop, hwb] at hok
        | some curb =>
            simp only [ConsensusEngine.clampLoop, hwb] at hok ⊢
            have hw' : dget? (dset w b (clip (curb *
                (if (decide (pcb = tl) && decide (mc = tl)) = true then p.weight_reward_correct
                 else if (decide (pcb = tl) && !decide (mc = tl)) = true then p.weight_reward_minority
                 else if (!decide (pcb = tl) && decide (mc = tl)) = true then p.weight_penalty_wrong
                 else p.weight_penalty_both_wrong)) p.weight_min p.weight_max)) a = some cur := by
              rw [dget?_dset_other _ b a _ hba]
              exact hw
            exact ih _ hnd2.2 hv' hw' hok

-- Claim C3

/-- C3: for every agent present in a feedback call, with the default
parameters, the outcome falls in exactly one of four buckets determined by
`(predicted_class == true_class)` and `(majority_class == true_class)`, and
the weight of that agent after the update loop (before renormalization,
which `update_weights_from_feedback` applies only afterwards) is its old
weight times exactly 1.05 / 1.15 / 0.90 / 0.85, clamped into
`[weight_min, weight_max] = [1/10, 5]` by `np.clip`. -/
theorem C3_four_bucket_multipliers (tl mc : ℤ) (votes : List (AgentId × ℤ × ℚ))
    (w : List (AgentId × ℚ)) (a : AgentId) (pc : ℤ) (conf cur : ℚ)
    (hnd : (dkeys votes).Nodup)
    (hv : dget? votes a = some (pc, conf))
    (hw : dget? w a = some cur)
    (hok : (ConsensusEngine.clampLoop defaultParams tl mc votes w).2 = none) :
    dget? (ConsensusEngine.clampLoop defaultParams tl mc votes w).1 a =
      some (clip (cur *
          (if pc = tl ∧ mc = tl then 21/20
           else if pc = tl ∧ ¬ mc = tl then 23/20
           else if ¬ pc = tl ∧ mc = tl then 9/10
           else 17/20)) (1/10) 5) := by
  rw [clampLoop_get defaultParams tl mc votes w a pc conf cur hnd hv hw hok]
  by_cases h1 : pc = tl <;> by_cases h2 : mc = tl <;>
    simp [h1, h2, defaultParams]

/-- Witness for C3 at a concrete input: one agent voting the true class in
a round whose majority is also correct gets its weight 1 multiplied by
1.05 and clamped, i.e. 21/20. -/
theorem C3_four_bucket_multipliers_witness :
    dget? (ConsensusEngine.clampLoop defaultParams 0 0 [("a", (0, 1))] [("a", 1)]).1 "a"
      = some (21/20) := by
  have h := C3_four_bucket_multipliers 0 0 [("a", (0, 1))] [("a", 1)] "a" 0 1 1
    (by simp [dkeys]) (by simp [dget?]) (by simp [dget?])
    (by simp [ConsensusEngine.clampLoop, dget?, dset])
  rw [h]
  norm_num [clip, min_def, max_def]

-- Lemmas about the constant-1 weight maps used by init and reset

theorem dget?_map_one_of_mem {l : List AgentId} {a : AgentId} (h : a ∈ l) :
    dget? (l.map fun n => (n, (1 : ℚ))) a = some 1 := by
  induction l with
  | nil => simp at h
  | cons b rest ih =>
      by_cases hb : b = a
      · simp [dget?, hb]
      · rcases List.mem_cons.mp h with h1 | h1
        · exact absurd h1.symm hb
        · simpa [dget?, hb] using ih h1

theorem dget?_map_one_eq_one {l : List AgentId} {a : AgentId} {w : ℚ}
    (h : dget? (l.map fun n => (n, (1 : ℚ))) a = some w) : w = 1 := by
  induction l with
  | nil => simp [dget?] at h
  | cons b rest ih =>
      by_cases hb : b = a
      · simp [dget?, hb] at h
        exact h.symm
      · exact ih (by simpa [dget?, hb] using h)

-- Claim C1, amended

/-- C1, amended: with the default parameters, the bound
`weight_min ≤ w ≤ weight_max` holds for every weight observable after
construction, after `reset_weights`, after `set_weight` on a tracked
agent, and after the multiply-and-clamp loop of
`update_weights_from_feedback`; the final renormalization of that method,
however, is applied after the clamp and can leave the bounds (see the
counterexample), so the invariant does not hold at every observable point. -/
theorem C1_weight_bounds_amended :
    (∀ (ags : List AgentId) (a : AgentId) (w : ℚ),
        dget? (ConsensusEngine.init ags defaultParams).weights a = some w →
        defaultParams.weight_min ≤ w ∧ w ≤ defaultParams.weight_max)
    ∧ (∀ (s : EngineState) (a : AgentId) (w : ℚ),
        dget? (ConsensusEngine.reset_weights s).weights a = some w →
        defaultParams.weight_min ≤ w ∧ w ≤ defaultParams.weight_max)
    ∧ (∀ (s : EngineState) (a : AgentId) (v w : ℚ), s.params = defaultParams →
        dget? (ConsensusEngine.set_weight s a v).1.weights a = some w → a ∈ s.agents →
        defaultParams.weight_min ≤ w ∧ w ≤ defaultParams.weight_max)
    ∧ (∀ (tl mc : ℤ) (votes : List (AgentId × ℤ × ℚ)) (w : List (AgentId × ℚ))
        (a : AgentId) (x : ℚ), (dkeys votes).Nodup →
        (ConsensusEngine.clampLoop defaultParams tl mc votes w).2 = none →
        a ∈ dkeys votes →
        dget? (ConsensusEngine.clampLoop defaultParams tl mc votes w).1 a = some x →
        defaultParams.weight_min ≤ x ∧ x ≤ defaultParams.weight_max) := by
  have hdle : defaultParams.weight_min ≤ defaultParams.weight_max := by
    norm_num [defaultParams]
  have hone : defaultParams.weight_min ≤ 1 ∧ (1 : ℚ) ≤ defaultParams.weight_max := by
    norm_num [defaultParams]
  refine ⟨?_, ?_, ?_, ?_⟩
  · intro ags a w h
    have := dget?_map_one_eq_one (h := by simpa [ConsensusEngine.init] using h)
    subst this
    exact hone
  · intro s a w h
    have := dget?_map_one_eq_one (h := by simpa [ConsensusEngine.reset_weights] using h)
    subst this
    exact hone
  · intro s a v w hp h ha
    rw [ConsensusEngine.set_weight, if_pos ha] at h
    rw [dget?_dset_same] at h
    cases h
    rw [hp]
    exact clip_bounds hdle
  · intro tl mc votes w a x hnd hok ha hx
    have hvs := dget?_isSome_of_mem ha
    obtain ⟨pcf, hv⟩ := Option.isSome_iff_exists.mp hvs
    obtain ⟨pc, conf⟩ := pcf
    have hws := clampLoop_present defaultParams tl mc votes w a hok ha
    obtain ⟨cur, hw⟩ := Option.isSome_iff_exists.mp hws
    rw [clampLoop_get defaultParams tl mc votes w a pc conf cur hnd hv hw hok] at hx
    cases hx
    exact clip_bounds hdle

/-- Witness for C1 amended: a freshly constructed single-agent engine has
weight 1, inside the default bounds. -/
theorem C1_weight_bounds_amended_witness :
    defaultParams.weight_min ≤ (1 : ℚ) ∧ (1 : ℚ) ≤ defaultParams.weight_max :=
  C1_weight_bounds_amended.1 ["a"] "a" 1
    (by simp [ConsensusEngine.init, dget?])

-- Lemmas about renormalization

theorem dget?_map_pairs {α : Type} [DecidableEq α] (w : List (α × ℚ)) (f : ℚ → ℚ) (a : α) :
    dget? (w.map fun q => (q.1, f q.2)) a = (dget? w a).map f := by
  induction w with
  | nil => simp [dget?]
  | cons q rest ih =>
      obtain ⟨k, v⟩ := q
      by_cases hk : k = a
      · simp [dget?, hk]
      · simpa [dget?, hk] using ih

theorem list_sum_map_mul {α : Type} (l : List α) (f : α → ℚ) (c : ℚ) :
    (l.map fun x => f x * c).sum = (l.map f).sum * c := by
  induction l with
  | nil => simp
  | cons x rest ih => simp [ih, add_mul]

theorem vsum_renormalize (w : List (AgentId × ℚ)) (n : ℚ) (hS : vsum w ≠ 0) :
    vsum (ConsensusEngine.renormalize w n) = n := by
  unfold ConsensusEngine.renormalize vsum
  rw [List.map_map]
  have h2 : (Prod.snd ∘ fun q : AgentId × ℚ => (q.1, q.2 / (w.map Prod.snd).sum * n))
      = fun q : AgentId × ℚ => q.2 * (n / (w.map Prod.snd).sum) := by
    funext q
    show q.2 / (w.map Prod.snd).sum * n = q.2 * (n / (w.map Prod.snd).sum)
    ring
  rw [h2, list_sum_map_mul w Prod.snd (n / (w.map Prod.snd).sum)]
  unfold vsum at hS
  field_simp

theorem dget?_renormalize (w : List (AgentId × ℚ)) (n : ℚ) (a : AgentId) :
    dget? (ConsensusEngine.renormalize w n) a = (dget? w a).map (fun v => v / vsum w * n) :=
  dget?_map_pairs w (fun v => v / vsum w * n) a

theorem dset_length {α β : Type} [DecidableEq α] (d : List (α × β)) (a : α) (x : β)
    (h : (dget? d a).isSome) : (dset d a x).length = d.length := by
  induction d with
  | nil => simp [dget?] at h
  | cons q rest ih =>
      obtain ⟨k, v⟩ := q
      by_cases hk : k = a
      · simp [dset, hk]
      · have : (dget? rest a).isSome := by simpa [dget?, hk] using h
        simp [dset, hk, ih this]

theorem clampLoop_length (p : EngineParams) (tl mc : ℤ) (votes : List (AgentId × ℤ × ℚ))
    (w : List (AgentId × ℚ)) :
    (ConsensusEngine.clampLoop p tl mc votes w).1.length = w.length := by
  induction votes generalizing w with
  | nil => simp [ConsensusEngine.clampLoop]
  | cons v rest ih =>
      obtain ⟨b, pc, conf⟩ := v
      cases hw : dget? w b with
      | none => simp [ConsensusEngine.clampLoop, hw]
      | some cur =>
          simp only [ConsensusEngine.clampLoop, hw]
          rw [ih]
          exact dset_length _ _ _ (by simp [hw])

theorem getMajority_ne_nil {votes : List (AgentId × ℤ × ℚ)} {mc : ℤ}
    (h : ConsensusEngine.getMajorityPrediction votes = .ok mc) : votes ≠ [] := by
  intro hv
  subst hv
  simp [ConsensusEngine.getMajorityPrediction, pySetAsc, dedupKeepLast, sortAsc,
    argmaxFirst] at h

theorem clampLoop_head_present {p : EngineParams} {tl mc : ℤ} {v : AgentId × ℤ × ℚ}
    {rest : List (AgentId × ℤ × ℚ)} {w : List (AgentId × ℚ)}
    (hok : (ConsensusEngine.clampLoop p tl mc (v :: rest) w).2 = none) :
    (dget? w v.1).isSome := by
  obtain ⟨b, pc, conf⟩ := v
  cases hw : dget? w b with
  | none => simp [ConsensusEngine.clampLoop, hw] at hok
  | some cur => simp [hw]

-- Claim C2

/-- C2: immediately after every successful `update_weights_from_feedback`
call the tracked weights sum exactly to the number of agents (exact in the
rational model, hence within epsilon for floats), and the renormalization
`w / weight_sum * num_agents` is applied to every tracked agent of the
post-clamp weight map — all keys of `self.weights`, not only the agents
present in this round of votes. -/
theorem C2_renormalized_sum (s : EngineState) (tl : ℤ) (votes : List (AgentId × ℤ × ℚ))
    (hok : isOk (ConsensusEngine.update_weights_from_feedback s tl votes).2 = true) :
    vsum (ConsensusEngine.update_weights_from_feedback s tl votes).1.weights
      = (s.agents.length : ℚ)
    ∧ ∀ mc, ConsensusEngine.getMajorityPrediction votes = .ok mc →
        ∀ a v,
          dget? (ConsensusEngine.clampLoop s.params tl mc votes s.weights).1 a = some v →
          dget? (ConsensusEngine.update_weights_from_feedback s tl votes).1.weights a
            = some (v / vsum (ConsensusEngine.clampLoop s.params tl mc votes s.weights).1
                * (s.agents.length : ℚ)) := by
  cases hmc : ConsensusEngine.getMajorityPrediction votes with
  | error e =>
      simp [ConsensusEngine.update_weights_from_feedback, hmc, isOk] at hok
  | ok mc0 =>
      rcases hcl : ConsensusEngine.clampLoop s.params tl mc0 votes s.weights with ⟨w1, oe⟩
      cases oe with
      | some e =>
          simp [ConsensusEngine.update_weights_from_feedback, hmc, hcl, isOk] at hok
      | none =>
          have hvne : votes ≠ [] := getMajority_ne_nil hmc
          have hwsne : s.weights ≠ [] := by
            cases votes with
            | nil => exact absurd rfl hvne
            | cons v0 rest =>
                have hokcl : (ConsensusEngine.clampLoop s.params tl mc0 (v0 :: rest)
                    s.weights).2 = none := by
                  rw [hcl]
                have hpres := clampLoop_head_present hokcl
                intro h
                rw [h] at hpres
                simp [dget?] at hpres
          have hw1ne : w1 ≠ [] := by
            intro h
            have hlen := clampLoop_length s.params tl mc0 votes s.weights
            rw [hcl, h] at hlen
            exact hwsne (List.eq_nil_of_length_eq_zero hlen.symm)
          by_cases hz : vsum w1 = 0
          · simp [ConsensusEngine.update_weights_from_feedback, hmc, hcl, isOk, hz,
              hw1ne] at hok
          · have hcond : ¬ (vsum w1 = 0 ∧ w1 ≠ []) := fun h => hz h.1
            constructor
            · simp only [ConsensusEngine.update_weights_from_feedback, hmc, hcl]
              rw [if_neg hcond]
              exact vsum_renormalize w1 _ hz
            · intro mc hmc2 a v hva
              have hmceq : mc = mc0 := by
                first
                | (injection hmc2 with h; exact h.symm)
                | (injection (hmc.symm.trans hmc2) with h; exact h.symm)
              subst hmceq
              rw [hcl] at hva
              simp only [ConsensusEngine.update_weights_from_feedback, hmc, hcl]
              rw [if_neg hcond]
              simp only [hcl]
              rw [dget?_renormalize, hva]
              rfl

/-- Witness for C2: the Scenario-B engine (three agents, two correct votes
and one wrong) has weight sum exactly 3 after the feedback call. -/
theorem C2_renormalized_sum_witness :
    vsum (ConsensusEngine.update_weights_from_feedback
        (ConsensusEngine.init ["a", "b", "c"] defaultParams) 0
        [("a", (0, 9/10)), ("b", (0, 8/10)), ("c", (1, 7/10))]).1.weights
      = (((ConsensusEngine.init ["a", "b", "c"] defaultParams).agents.length : ℕ) : ℚ) :=
  (C2_renormalized_sum (ConsensusEngine.init ["a", "b", "c"] defaultParams) 0
    [("a", (0, 9/10)), ("b", (0, 8/10)), ("c", (1, 7/10))]
    (by
      simp [ConsensusEngine.update_weights_from_feedback, ConsensusEngine.init,
        ConsensusEngine.getMajorityPrediction, ConsensusEngine.clampLoop,
        ConsensusEngine.renormalize, defaultParams, clip, pySetAsc, sortAsc, insertAsc,
        dedupKeepLast, argmaxFirst, daccum, dget?, dset, vsum, isOk, min_def, max_def]
      norm_num)).1

-- Claim C8

/-- C8: `reset_weights` followed by `get_weights` yields weight 1.0 for
every tracked agent, regardless of prior history, and `reset_weights`
changes only the weight map: the prediction history, and therefore the
historical reputation counters derived from it by `get_agent_reputation`
(total prediction count, accuracy, running confidence average), are left
untouched. -/
theorem C8_reset_round_trip (s : EngineState) (a : AgentId) (ha : a ∈ s.agents)
    (hw : (dget? s.weights a).isSome) :
    dget? (ConsensusEngine.get_weights (ConsensusEngine.reset_weights s)) a = some 1
    ∧ (ConsensusEngine.reset_weights s).history = s.history
    ∧ (ConsensusEngine.reset_weights s).agents = s.agents
    ∧ (ConsensusEngine.reset_weights s).params = s.params
    ∧ (ConsensusEngine.get_agent_reputation (ConsensusEngine.reset_weights s) a).toOption.map
          (fun r => (r.total_predictions, r.accuracy, r.confidence_avg))
        = (ConsensusEngine.get_agent_reputation s a).toOption.map
          (fun r => (r.total_predictions, r.accuracy, r.confidence_avg)) := by
  obtain ⟨w0, hw0⟩ := Option.isSome_iff_exists.mp hw
  refine ⟨?_, rfl, rfl, rfl, ?_⟩
  · simp [ConsensusEngine.get_weights, ConsensusEngine.reset_weights,
      dget?_map_one_of_mem ha]
  · by_cases hemp : ((s.history.filter
        (fun h => (dget? h.predictions a).isSome)).map
        (fun h => dget? h.predictions a)) = [] <;>
      simp [ConsensusEngine.get_agent_reputation, ConsensusEngine.reset_weights, ha, hemp,
        hw0, dget?_map_one_of_mem ha, Except.toOption]

/-- Witness for C8: a freshly built single-agent engine, after reset, reads
back weight 1 for its agent. -/
theorem C8_reset_round_trip_witness :
    dget? (ConsensusEngine.get_weights
        (ConsensusEngine.reset_weights (ConsensusEngine.init ["a"] defaultParams))) "a"
      = some 1 :=
  (C8_reset_round_trip (ConsensusEngine.init ["a"] defaultParams) "a" (by decide)
    (by decide)).1

-- Claim C7, amended

/-- C7, amended: `update_weights_from_feedback` with an empty vote map
raises the built-in `ValueError` coming from `max()` over an empty
sequence — not a `ValidationError` — before any mutation, so the state is
returned unchanged; a vote map referencing an unknown agent id instead
raises `KeyError` part-way through the update loop, and the weights of
agents processed before the unknown id remain modified in the post-call
state (witnessed here by agent x of a fresh two-agent engine keeping
weight 21/20 after the failed call). -/
theorem C7_feedback_error_paths_amended :
    (∀ (s : EngineState) (tl : ℤ),
        ConsensusEngine.update_weights_from_feedback s tl []
          = (s, .error .valueError))
    ∧ dget? (ConsensusEngine.update_weights_from_feedback
          (ConsensusEngine.init ["x", "y"] defaultParams) 0
          [("x", (0, 1)), ("z", (0, 1))]).1.weights "x" = some (21/20)
    ∧ errOf (ConsensusEngine.update_weights_from_feedback
          (ConsensusEngine.init ["x", "y"] defaultParams) 0
          [("x", (0, 1)), ("z", (0, 1))]).2 = some (.keyError "z") := by
  refine ⟨fun s tl => rfl, ?_, ?_⟩ <;>
    (simp [ConsensusEngine.update_weights_from_feedback, ConsensusEngine.init,
      ConsensusEngine.getMajorityPrediction, ConsensusEngine.clampLoop,
      ConsensusEngine.renormalize, defaultParams, clip, pySetAsc, sortAsc, insertAsc,
      dedupKeepLast, argmaxFirst, daccum, dget?, dset, vsum, errOf, min_def, max_def]) <;>
    norm_num

/-- Witness for C7 amended: the empty-votes clause applied to a concrete
fresh engine. -/
theorem C7_feedback_error_paths_amended_witness :
    ConsensusEngine.update_weights_from_feedback
        (ConsensusEngine.init ["a"] defaultParams) 0 []
      = (ConsensusEngine.init ["a"] defaultParams, .error .valueError) :=
  C7_feedback_error_paths_amended.1 (ConsensusEngine.init ["a"] defaultParams) 0

-- Claim C4, amended

/-- C4, amended: on an exact tie between the weighted scores of two
distinct classes, `WeightedVoter.vote` deterministically selects the class
whose score entry was inserted first — the class of the earlier vote in
the predictions' iteration order — not the lower label; the unweighted
majority computation of `RecordFeedback`
(`max(set(classes), key=classes.count)`, modelled with CPython's ascending
iteration over a set of small non-negative ints) does select the lower
label on a tie. -/
theorem C4_tie_break_amended (a b : AgentId) (c1 c2 : ℤ) (cf1 cf2 u1 u2 : ℚ)
    (hab : ¬ a = b) (hc : ¬ c1 = c2) (heq : u1 * cf1 = u2 * cf2) :
    (WeightedVoter.vote [(a, (c1, cf1)), (b, (c2, cf2))] [(a, u1), (b, u2)]).toOption.map
        (fun r => r.predicted_class) = some c1
    ∧ ConsensusEngine.getMajorityPrediction [(a, (c1, cf1)), (b, (c2, cf2))]
        = .ok (min c1 c2) := by
  have hba : ¬ b = a := fun h => hab h.symm
  have hcc : ¬ c2 = c1 := fun h => hc h.symm
  constructor
  · have hsk : sameKeySets [(a, (c1, cf1)), (b, (c2, cf2))] [(a, u1), (b, u2)] := by
      constructor <;> intro k hk <;> simp [dkeys] at hk ⊢ <;> tauto
    simp [WeightedVoter.vote, hsk, weightedScores, daccum, dget?, argmaxFirst, hab, hc,
      Except.toOption, heq, hba, hcc]
  · rcases le_or_lt c1 c2 with h | h
    · have hmin : min c1 c2 = c1 := min_eq_left h
      simp [ConsensusEngine.getMajorityPrediction, pySetAsc, dedupKeepLast, sortAsc,
        insertAsc, argmaxFirst, hc, h, hmin, hcc]
    · have hmin : min c1 c2 = c2 := min_eq_right h.le
      have hnle : ¬ c1 ≤ c2 := not_le.mpr h
      simp [ConsensusEngine.getMajorityPrediction, pySetAsc, dedupKeepLast, sortAsc,
        insertAsc, argmaxFirst, hc, hnle, hmin, hcc]

/-- Witness for C4 amended: votes a ↦ (1, 0.9), b ↦ (0, 0.9) with equal
weights give an exact tie; the weighted vote returns the first-inserted
class 1, the unweighted majority returns the lower label 0 = min 1 0. -/
theorem C4_tie_break_amended_witness :
    (WeightedVoter.vote [("a", (1, 9/10)), ("b", (0, 9/10))] [("a", 1), ("b", 1)]).toOption.map
        (fun r => r.predicted_class) = some 1
    ∧ ConsensusEngine.getMajorityPrediction [("a", (1, 9/10)), ("b", (0, 9/10))]
        = .ok (min 1 0) :=
  C4_tie_break_amended "a" "b" 1 0 (9/10) (9/10) 1 1 (by decide) (by decide) (by norm_num)

-- Lemmas about the score-accumulation fold and the first-maximum selection

theorem daccum_ne_nil {α : Type} [DecidableEq α] (d : List (α × ℚ)) (k : α) (x : ℚ) :
    daccum d k x ≠ [] := by
  cases d with
  | nil => simp [daccum]
  | cons q rest =>
      obtain ⟨k1, v1⟩ := q
      by_cases h : k1 = k <;> simp [daccum, h]

theorem daccum_head_key {α : Type} [DecidableEq α] (d : List (α × ℚ)) (k : α) (x : ℚ)
    (hd : d ≠ []) : (daccum d k x).head?.map Prod.fst = d.head?.map Prod.fst := by
  cases d with
  | nil => exact absurd rfl hd
  | cons q rest =>
      obtain ⟨k1, v1⟩ := q
      by_cases h : k1 = k <;> simp [daccum, h]

theorem mem_daccum {α : Type} [DecidableEq α] {d : List (α × ℚ)} {k : α} {x : ℚ}
    {q : α × ℚ} (hq : q ∈ daccum d k x) :
    q ∈ d ∨ q.1 = k ∧ (q.2 = x ∨ ∃ v, (k, v) ∈ d ∧ q.2 = v + x) := by
  induction d with
  | nil =>
      simp [daccum] at hq
      subst hq
      exact Or.inr ⟨rfl, Or.inl rfl⟩
  | cons p rest ih =>
      obtain ⟨k1, v1⟩ := p
      by_cases h : k1 = k
      · subst h
        simp only [daccum, if_pos rfl] at hq
        rcases List.mem_cons.mp hq with h1 | h1
        · subst h1
          exact Or.inr ⟨rfl, Or.inr ⟨v1, List.mem_cons_self _ _, rfl⟩⟩
        · exact Or.inl (List.mem_cons_of_mem _ h1)
      · simp only [daccum, if_neg h] at hq
        rcases List.mem_cons.mp hq with h1 | h1
        · exact Or.inl (h1 ▸ List.mem_cons_self _ _)
        · rcases ih h1 with h2 | ⟨h2, h3⟩
          · exact Or.inl (List.mem_cons_of_mem _ h2)
          · refine Or.inr ⟨h2, ?_⟩
            rcases h3 with h3 | ⟨v, hv, hv2⟩
            · exact Or.inl h3
            · exact Or.inr ⟨v, List.mem_cons_of_mem _ hv, hv2⟩

theorem daccum_allZero {α : Type} [DecidableEq α] {d : List (α × ℚ)} {k : α} {x : ℚ}
    (hd : ∀ q ∈ d, q.2 = 0) (hx : x = 0) : ∀ q ∈ daccum d k x, q.2 = 0 := by
  intro q hq
  rcases mem_daccum hq with h | ⟨_, h⟩
  · exact hd q h
  · rcases h with h | ⟨v, hv, hv2⟩
    · exact h.trans hx
    · have hv0 : v = 0 := hd _ hv
      rw [hv2, hv0, hx, add_zero]

theorem daccum_nonneg {α : Type} [DecidableEq α] {d : List (α × ℚ)} {k : α} {x : ℚ}
    (hd : ∀ q ∈ d, 0 ≤ q.2) (hx : 0 ≤ x) : ∀ q ∈ daccum d k x, 0 ≤ q.2 := by
  intro q hq
  rcases mem_daccum hq with h | ⟨_, h⟩
  · exact hd q h
  · rcases h with h | ⟨v, hv, hv2⟩
    · exact h ▸ hx
    · rw [hv2]
      exact add_nonneg (hd _ hv) hx

theorem vsum_daccum {α : Type} [DecidableEq α] (d : List (α × ℚ)) (k : α) (x : ℚ) :
    vsum (daccum d k x) = vsum d + x := by
  induction d with
  | nil => simp [daccum, vsum]
  | cons p rest ih =>
      obtain ⟨k1, v1⟩ := p
      by_cases h : k1 = k
      · simp [daccum, h, vsum]
        ring
      · simp [daccum, h, vsum] at ih ⊢
        rw [ih]
        ring

theorem mem_dkeys_daccum {α : Type} [DecidableEq α] {d : List (α × ℚ)} {k a : α} {x : ℚ}
    (h : a ∈ dkeys (daccum d k x)) : a ∈ dkeys d ∨ a = k := by
  rcases List.mem_map.mp h with ⟨q, hq, hq2⟩
  rcases mem_daccum hq with h1 | ⟨h1, _⟩
  · exact Or.inl (List.mem_map.mpr ⟨q, h1, hq2⟩)
  · exact Or.inr (hq2 ▸ h1)

theorem dkeys_daccum_nodup {α : Type} [DecidableEq α] {d : List (α × ℚ)} (k : α) (x : ℚ)
    (h : (dkeys d).Nodup) : (dkeys (daccum d k x)).Nodup := by
  induction d with
  | nil => simp [daccum, dkeys]
  | cons p rest ih =>
      obtain ⟨k1, v1⟩ := p
      have h2 : k1 ∉ rest.map Prod.fst ∧ (rest.map Prod.fst).Nodup := List.nodup_cons.mp h
      by_cases hk : k1 = k
      · simpa [daccum, hk, dkeys] using h
      · have hrest := ih h2.2
        have hk1 : k1 ∉ dkeys (daccum rest k x) := by
          intro hmem
          rcases mem_dkeys_daccum hmem with h3 | h3
          · exact h2.1 h3
          · exact hk h3
        have hnd : (dkeys ((k1, v1) :: daccum rest k x)).Nodup :=
          List.nodup_cons.mpr ⟨hk1, hrest⟩
        simpa [daccum, hk] using hnd

theorem foldWS_allZero (g : AgentId × ℤ × ℚ → ℚ) (preds : List (AgentId × ℤ × ℚ))
    (d : List (ℤ × ℚ)) (hd : ∀ q ∈ d, q.2 = 0) (hg : ∀ p ∈ preds, g p = 0) :
    ∀ q ∈ preds.foldl (fun m p => daccum m p.2.1 (g p)) d, q.2 = 0 := by
  induction preds generalizing d with
  | nil => simpa using hd
  | cons p rest ih =>
      simp only [List.foldl_cons]
      exact ih _ (daccum_allZero hd (hg p (List.mem_cons_self _ _)))
        (fun q hq => hg q (List.mem_cons_of_mem _ hq))

theorem foldWS_nonneg (g : AgentId × ℤ × ℚ → ℚ) (preds : List (AgentId × ℤ × ℚ))
    (d : List (ℤ × ℚ)) (hd : ∀ q ∈ d, 0 ≤ q.2) (hg : ∀ p ∈ preds, 0 ≤ g p) :
    ∀ q ∈ preds.foldl (fun m p => daccum m p.2.1 (g p)) d, 0 ≤ q.2 := by
  induction preds generalizing d with
  | nil => simpa using hd
  | cons p rest ih =>
      simp only [List.foldl_cons]
      exact ih _ (daccum_nonneg hd (hg p (List.mem_cons_self _ _)))
        (fun q hq => hg q (List.mem_cons_of_mem _ hq))

theorem foldWS_ne_nil (g : AgentId × ℤ × ℚ → ℚ) (preds : List (AgentId × ℤ × ℚ))
    (d : List (ℤ × ℚ)) (hd : d ≠ []) :
    preds.foldl (fun m p => daccum m p.2.1 (g p)) d ≠ [] := by
  induction preds generalizing d with
  | nil => simpa using hd
  | cons p rest ih =>
      simp only [List.foldl_cons]
      exact ih _ (daccum_ne_nil _ _ _)

theorem foldWS_head_key (g : AgentId × ℤ × ℚ → ℚ) (preds : List (AgentId × ℤ × ℚ))
    (d : List (ℤ × ℚ)) (hd : d ≠ []) :
    (preds.foldl (fun m p => daccum m p.2.1 (g p)) d).head?.map Prod.fst
      = d.head?.map Prod.fst := by
  induction preds generalizing d with
  | nil => simp
  | cons p rest ih =>
      simp only [List.foldl_cons]
      rw [ih _ (daccum_ne_nil _ _ _), daccum_head_key _ _ _ hd]

theorem foldWS_vsum (g : AgentId × ℤ × ℚ → ℚ) (preds : List (AgentId × ℤ × ℚ))
    (d : List (ℤ × ℚ)) :
    vsum (preds.foldl (fun m p => daccum m p.2.1 (g p)) d)
      = vsum d + (preds.map g).sum := by
  induction preds generalizing d with
  | nil => simp
  | cons p rest ih =>
      simp only [List.foldl_cons, List.map_cons, List.sum_cons]
      rw [ih _, vsum_daccum]
      ring

theorem foldWS_nodup (g : AgentId × ℤ × ℚ → ℚ) (preds : List (AgentId × ℤ × ℚ))
    (d : List (ℤ × ℚ)) (hd : (dkeys d).Nodup) :
    (dkeys (preds.foldl (fun m p => daccum m p.2.1 (g p)) d)).Nodup := by
  induction preds generalizing d with
  | nil => simpa using hd
  | cons p rest ih =>
      simp only [List.foldl_cons]
      exact ih _ (dkeys_daccum_nodup _ _ hd)

theorem weightedScores_cons_ne_nil (c : ℚ) (p0 : AgentId × ℤ × ℚ)
    (rest : List (AgentId × ℤ × ℚ)) (w : List (AgentId × ℚ)) :
    weightedScores c (p0 :: rest) w ≠ [] := by
  unfold weightedScores
  simp only [List.foldl_cons]
  exact foldWS_ne_nil _ rest _ (daccum_ne_nil _ _ _)

theorem weightedScores_cons_head (c : ℚ) (p0 : AgentId × ℤ × ℚ)
    (rest : List (AgentId × ℤ × ℚ)) (w : List (AgentId × ℚ)) :
    (weightedScores c (p0 :: rest) w).head?.map Prod.fst = some p0.2.1 := by
  unfold weightedScores
  simp only [List.foldl_cons]
  rw [foldWS_head_key _ rest _ (daccum_ne_nil _ _ _)]
  simp [daccum]

theorem argmax_fold_spec {α β : Type} [LinearOrder β] (d : List (α × β)) :
    ∀ (acc : Option (α × β)) (k : α) (v : β),
      d.foldl (fun acc p =>
        match acc with
        | none => some p
        | some q => if p.2 > q.2 then some p else some q) acc = some (k, v) →
      ((k, v) ∈ d ∨ acc = some (k, v))
      ∧ (∀ q ∈ d, q.2 ≤ v)
      ∧ (∀ p : α × β, acc = some p → p.2 ≤ v) := by
  induction d with
  | nil =>
      intro acc k v h
      simp only [List.foldl_nil] at h
      refine ⟨Or.inr h, by simp, fun p hp => ?_⟩
      rw [h] at hp
      cases hp
      exact le_refl _
  | cons q rest ih =>
      intro acc k v h
      simp only [List.foldl_cons] at h
      cases acc with
      | none =>
          have h2 : rest.foldl (fun acc p =>
              match acc with
              | none => some p
              | some q => if p.2 > q.2 then some p else some q) (some q) = some (k, v) := h
          obtain ⟨hmem, hbound, hacc⟩ := ih (some q) k v h2
          have hqv : q.2 ≤ v := hacc q rfl
          refine ⟨?_, ?_, ?_⟩
          · rcases hmem with h1 | h1
            · exact Or.inl (List.mem_cons_of_mem _ h1)
            · injection h1 with h1
              exact Or.inl (h1 ▸ List.mem_cons_self _ _)
          · intro p hp
            rcases List.mem_cons.mp hp with h1 | h1
            · exact h1 ▸ hqv
            · exact hbound p h1
          · intro p hp
            cases hp
      | some r =>
          by_cases hgt : q.2 > r.2
          · have h2 : rest.foldl (fun acc p =>
                match acc with
                | none => some p
                | some q => if p.2 > q.2 then some p else some q) (some q) = some (k, v) := by
              simpa [hgt] using h
            obtain ⟨hmem, hbound, hacc⟩ := ih (some q) k v h2
            have hqv : q.2 ≤ v := hacc q rfl
            refine ⟨?_, ?_, ?_⟩
            · rcases hmem with h1 | h1
              · exact Or.inl (List.mem_cons_of_mem _ h1)
              · injection h1 with h1
                exact Or.inl (h1 ▸ List.mem_cons_self _ _)
            · intro p hp
              rcases List.mem_cons.mp hp with h1 | h1
              · exact h1 ▸ hqv
              · exact hbound p h1
            · intro p hp
              injection hp with hp
              exact hp ▸ le_trans (le_of_lt hgt) hqv
          · have h2 : rest.foldl (fun acc p =>
                match acc with
                | none => some p
                | some q => if p.2 > q.2 then some p else some q) (some r) = some (k, v) := by
              simpa [hgt] using h
            obtain ⟨hmem, hbound, hacc⟩ := ih (some r) k v h2
            have hrv : r.2 ≤ v := hacc r rfl
            have hqv : q.2 ≤ v := le_trans (le_of_not_lt hgt) hrv
            refine ⟨?_, ?_, ?_⟩
            · rcases hmem with h1 | h1
              · exact Or.inl (List.mem_cons_of_mem _ h1)
              · exact Or.inr h1
            · intro p hp
              rcases List.mem_cons.mp hp with h1 | h1
              · exact h1 ▸ hqv
              · exact hbound p h1
            · intro p hp
              injection hp with hp
              exact hp ▸ hrv

theorem argmaxFirst_spec {α β : Type} [LinearOrder β] {d : List (α × β)} {k : α}
    (h : argmaxFirst d = some k) : ∃ v, (k, v) ∈ d ∧ ∀ q ∈ d, q.2 ≤ v := by
  unfold argmaxFirst at h
  cases hf : d.foldl (fun acc p =>
      match acc with
      | none => some p
      | some q => if p.2 > q.2 then some p else some q) none with
  | none => rw [hf] at h; cases h
  | some q =>
      obtain ⟨k0, v⟩ := q
      rw [hf] at h
      simp at h
      subst h
      obtain ⟨hmem, hbound, _⟩ := argmax_fold_spec d none k0 v hf
      rcases hmem with h1 | h1
      · exact ⟨v, h1, hbound⟩
      · cases h1

theorem argmaxFirst_isSome {α β : Type} [LinearOrder β] {d : List (α × β)} (hd : d ≠ []) :
    (argmaxFirst d).isSome := by
  cases d with
  | nil => exact absurd rfl hd
  | cons q rest =>
      unfold argmaxFirst
      simp only [List.foldl_cons]
      have hkeep : ∀ (acc : α × β),
          (rest.foldl (fun acc p =>
            match acc with
            | none => some p
            | some q => if p.2 > q.2 then some p else some q) (some acc)).isSome := by
        induction rest with
        | nil => intro acc; simp
        | cons r rs ih =>
            intro acc
            simp only [List.foldl_cons]
            by_cases hgt : r.2 > acc.2 <;> simp [hgt, ih]
      simpa using hkeep q

theorem vsum_nonneg {α : Type} {d : List (α × ℚ)} (h : ∀ q ∈ d, 0 ≤ q.2) :
    0 ≤ vsum d := by
  induction d with
  | nil => simp [vsum]
  | cons q rest ih =>
      have h1 := h q (List.mem_cons_self _ _)
      have h2 := ih (fun p hp => h p (List.mem_cons_of_mem _ hp))
      simp only [vsum, List.map_cons, List.sum_cons] at h2 ⊢
      exact add_nonneg h1 h2

theorem vsum_eq_zero {α : Type} {d : List (α × ℚ)} (h : ∀ q ∈ d, q.2 = 0) :
    vsum d = 0 := by
  induction d with
  | nil => simp [vsum]
  | cons q rest ih =>
      have h1 := h q (List.mem_cons_self _ _)
      have h2 := ih (fun p hp => h p (List.mem_cons_of_mem _ hp))
      simp only [vsum, List.map_cons, List.sum_cons] at h2 ⊢
      rw [h1, h2, add_zero]

theorem val_le_vsum {α : Type} {d : List (α × ℚ)} {k : α} {v : ℚ}
    (hmem : (k, v) ∈ d) (hnn : ∀ q ∈ d, 0 ≤ q.2) : v ≤ vsum d := by
  induction d with
  | nil => simp at hmem
  | cons q rest ih =>
      have hrest_nn : ∀ p ∈ rest, 0 ≤ p.2 := fun p hp => hnn p (List.mem_cons_of_mem _ hp)
      have hvs : vsum (q :: rest) = q.2 + vsum rest := by
        simp [vsum]
      rcases List.mem_cons.mp hmem with h1 | h1
      · have h0 : 0 ≤ vsum rest := vsum_nonneg hrest_nn
        have hq2 : q.2 = v := by rw [← h1]
        rw [hvs, hq2]
        exact le_add_of_nonneg_right h0
      · have h0 : 0 ≤ q.2 := hnn q (List.mem_cons_self _ _)
        rw [hvs]
        calc v ≤ vsum rest := ih h1 hrest_nn
        _ ≤ q.2 + vsum rest := le_add_of_nonneg_left h0

theorem argmax_fold_keep {α β : Type} [LinearOrder β] (q : α × β)
    (rs : List (α × β)) (hall : ∀ p ∈ rs, ¬ (p.2 > q.2)) :
    rs.foldl (fun acc p =>
      match acc with
      | none => some p
      | some q => if p.2 > q.2 then some p else some q) (some q) = some q := by
  induction rs with
  | nil => rfl
  | cons r rest2 ih =>
      have hr := hall r (List.mem_cons_self _ _)
      simp only [List.foldl_cons, hr, if_false]
      exact ih (fun p hp => hall p (List.mem_cons_of_mem _ hp))

theorem argmaxFirst_allZero {α : Type} {d : List (α × ℚ)} (hz : ∀ q ∈ d, q.2 = 0)
    (hd : d ≠ []) : argmaxFirst d = d.head?.map Prod.fst := by
  cases d with
  | nil => exact absurd rfl hd
  | cons q rest =>
      unfold argmaxFirst
      simp only [List.foldl_cons]
      have hq0 : q.2 = 0 := hz q (List.mem_cons_self _ _)
      have hall : ∀ p ∈ rest, ¬ (p.2 > q.2) := by
        intro p hp
        rw [hz p (List.mem_cons_of_mem _ hp), hq0]
        exact lt_irrefl 0
      rw [argmax_fold_keep q rest hall]
      simp

-- Claim C5, amended

/-- C5, amended: on a vote map whose confidences are all zero (total
weighted score 0), `WeightedVoter.vote` returns confidence 0 together with
the class of the FIRST vote in iteration order (the first key inserted in
the score dict), not the numerically smallest label; and the voting path
used by `ConsensusEngine.predict`, `compute_weighted_vote`, returns that
same first-vote class but confidence 0.5, not 0. -/
theorem C5_zero_total_amended (preds : List (AgentId × ℤ × ℚ))
    (weights : List (AgentId × ℚ)) (a0 : AgentId) (c0 : ℤ) (cf0 : ℚ)
    (hh : preds.head? = some (a0, (c0, cf0)))
    (hz : ∀ p ∈ preds, p.2.2 = 0)
    (hks : sameKeySets preds weights) :
    (WeightedVoter.vote preds weights).toOption.map
        (fun r => (r.predicted_class, r.confidence)) = some (c0, 0)
    ∧ compute_weighted_vote preds weights = (c0, 1/2) := by
  cases preds with
  | nil => simp at hh
  | cons p0 rest =>
      have hp0 : p0 = (a0, (c0, cf0)) := by simpa using hh
      subst hp0
      have hg0 : ∀ c : ℚ, ∀ q ∈ weightedScores c ((a0, (c0, cf0)) :: rest) weights,
          q.2 = 0 := by
        intro c
        exact foldWS_allZero _ _ [] (by simp)
          (fun p hp => by rw [hz p hp, mul_zero])
      have hne : ∀ c : ℚ, weightedScores c ((a0, (c0, cf0)) :: rest) weights ≠ [] :=
        fun c => weightedScores_cons_ne_nil c _ rest weights
      have hargc : ∀ c : ℚ,
          (argmaxFirst (weightedScores c ((a0, (c0, cf0)) :: rest) weights)).getD 0
            = c0 := by
        intro c
        rw [argmaxFirst_allZero (hg0 c) (hne c),
          weightedScores_cons_head c _ rest weights]
        rfl
      have hsum : ∀ c : ℚ, vsum (weightedScores c ((a0, (c0, cf0)) :: rest) weights) = 0 :=
        fun c => vsum_eq_zero (hg0 c)
      constructor
      · have hcons : ¬ ((a0, (c0, cf0)) :: rest = []) := by simp
        unfold WeightedVoter.vote
        rw [if_neg hcons, if_pos hks]
        simp only [Except.toOption, Option.map, hargc 0, hsum 0]
        norm_num
      · unfold compute_weighted_vote
        rw [if_neg (hne 1)]
        simp only [hargc 1, hsum 1]
        norm_num

/-- Witness for C5 amended: two all-zero-confidence votes, first for class
1: the weighted voter returns (1, 0) and the predict path returns
(1, 1/2). -/
theorem C5_zero_total_amended_witness :
    (WeightedVoter.vote [("a", (1, 0)), ("b", (0, 0))] [("a", 1), ("b", 1)]).toOption.map
        (fun r => (r.predicted_class, r.confidence)) = some (1, 0)
    ∧ compute_weighted_vote [("a", (1, 0)), ("b", (0, 0))] [("a", 1), ("b", 1)] = (1, 1/2) :=
  C5_zero_total_amended [("a", (1, 0)), ("b", (0, 0))] [("a", 1), ("b", 1)] "a" 1 0
    (by decide) (by decide) (by decide)

-- Claim C6, amended

/-- C6, amended: the empty-votes / key-set-mismatch precondition is
enforced only by `WeightedVoter.vote`, which raises `ConsensusError` for
both violations; the voting path `ConsensusEngine.predict` actually uses,
`compute_weighted_vote`, performs no validation at all: an empty vote map
returns the value (0, 0.5) instead of failing, and a key-set mismatch is
absorbed by the 1.0 default weight. -/
theorem C6_validation_amended :
    (∀ weights : List (AgentId × ℚ),
        WeightedVoter.vote [] weights = .error "No predictions provided")
    ∧ (∀ (preds : List (AgentId × ℤ × ℚ)) (weights : List (AgentId × ℚ)),
        ¬ preds = [] → ¬ sameKeySets preds weights →
        WeightedVoter.vote preds weights
          = .error "Agent names in predictions and weights do not match")
    ∧ (∀ weights : List (AgentId × ℚ), compute_weighted_vote [] weights = (0, 1/2))
    ∧ (∀ s : EngineState, ConsensusEngine.predictVote s [] = (0, 1/2)) := by
  refine ⟨fun weights => rfl, ?_, fun weights => rfl, fun s => rfl⟩
  intro preds weights hne hks
  unfold WeightedVoter.vote
  rw [if_neg hne, if_neg hks]

/-- Witness for C6 amended: a one-vote map against an empty weight map is
rejected by `WeightedVoter.vote` with the mismatch error, while the same
empty weight map on the predict path simply defaults the weight. -/
theorem C6_validation_amended_witness :
    WeightedVoter.vote [("a", ((0 : ℤ), (1 : ℚ)))] []
      = .error "Agent names in predictions and weights do not match" :=
  C6_validation_amended.2.1 [("a", (0, 1))] [] (by simp)
    (by simp [sameKeySets, dkeys])

-- Claim C9

theorem weightedScores_fold_congr (c1 c2 : ℚ) (weights : List (AgentId × ℚ)) :
    ∀ (preds : List (AgentId × ℤ × ℚ)), (∀ p ∈ preds, p.1 ∈ dkeys weights) →
    ∀ d, preds.foldl (fun m p => daccum m p.2.1 ((dget? weights p.1).getD c1 * p.2.2)) d
      = preds.foldl (fun m p => daccum m p.2.1 ((dget? weights p.1).getD c2 * p.2.2)) d := by
  intro preds
  induction preds with
  | nil => intro _ d; rfl
  | cons p rest ih =>
      intro hmem d
      simp only [List.foldl_cons]
      obtain ⟨v, hv⟩ := Option.isSome_iff_exists.mp
        (dget?_isSome_of_mem (hmem p (List.mem_cons_self _ _)))
      rw [hv]
      simp only [Option.getD_some]
      exact ih (fun q hq => hmem q (List.mem_cons_of_mem _ hq)) _

/-- C9: on the shared domain of the two voting implementations — non-empty
vote maps with matching key sets, confidences and weights in the
non-negative ranges of the data model, and positive total weighted score —
`WeightedVoter.vote` (consensus/voting.py) and `compute_weighted_vote`
(shared/utils.py, the function `ConsensusEngine.predict` actually calls)
return the same predicted class and the same confidence. -/
theorem C9_voting_paths_agree (preds : List (AgentId × ℤ × ℚ))
    (weights : List (AgentId × ℚ))
    (hne : ¬ preds = [])
    (hks : sameKeySets preds weights)
    (hcf : ∀ p ∈ preds, 0 ≤ p.2.2)
    (hwp : ∀ q ∈ weights, 0 ≤ q.2)
    (htot : 0 < totalWeightedScore preds weights) :
    (WeightedVoter.vote preds weights).toOption.map
        (fun r => (r.predicted_class, r.confidence))
      = some (compute_weighted_vote preds weights) := by
  have hmemw : ∀ p ∈ preds, p.1 ∈ dkeys weights := fun p hp =>
    hks.1 p.1 (List.mem_map.mpr ⟨p, hp, rfl⟩)
  have hcongr : weightedScores 0 preds weights = weightedScores 1 preds weights := by
    unfold weightedScores
    exact weightedScores_fold_congr 0 1 weights preds hmemw []
  have hgd : ∀ p ∈ preds, 0 ≤ (dget? weights p.1).getD 1 * p.2.2 := by
    intro p hp
    have h1 : 0 ≤ (dget? weights p.1).getD 1 := by
      cases hq : dget? weights p.1 with
      | none => norm_num
      | some v => simpa using hwp _ (dget?_some_mem hq)
    exact mul_nonneg h1 (hcf p hp)
  have hnn : ∀ q ∈ weightedScores 1 preds weights, 0 ≤ q.2 :=
    foldWS_nonneg _ preds [] (by simp) hgd
  have hnd : (dkeys (weightedScores 1 preds weights)).Nodup :=
    foldWS_nodup _ preds [] (by simp [dkeys])
  have hsum : vsum (weightedScores 1 preds weights) = totalWeightedScore preds weights := by
    unfold weightedScores totalWeightedScore
    rw [foldWS_vsum]
    simp [vsum]
  have hpos : 0 < vsum (weightedScores 1 preds weights) := by
    rw [hsum]
    exact htot
  have hvne : weightedScores 1 preds weights ≠ [] := by
    cases preds with
    | nil => exact absurd rfl hne
    | cons p0 rest => exact weightedScores_cons_ne_nil 1 p0 rest weights
  obtain ⟨fc, hfc⟩ := Option.isSome_iff_exists.mp (argmaxFirst_isSome hvne)
  obtain ⟨v, hvmem, hvmax⟩ := argmaxFirst_spec hfc
  have hvget : dget? (weightedScores 1 preds weights) fc = some v :=
    dget?_of_nodup_mem hnd hvmem
  have hle : v ≤ vsum (weightedScores 1 preds weights) := val_le_vsum hvmem hnn
  have hvote : WeightedVoter.vote preds weights
      = .ok ⟨fc, v / vsum (weightedScores 1 preds weights),
          weightedScores 1 preds weights, weights⟩ := by
    unfold WeightedVoter.vote
    rw [if_neg hne, if_pos hks]
    simp only [hcongr, hfc, Option.getD_some]
    rw [if_pos hpos, hvget]
    simp only [Option.getD_some]
  have hcwv : compute_weighted_vote preds weights
      = (fc, v / vsum (weightedScores 1 preds weights)) := by
    unfold compute_weighted_vote
    rw [if_neg hvne]
    simp only [hfc, Option.getD_some]
    rw [if_pos hpos, hvget]
    simp only [Option.getD_some]
    rw [min_eq_left ((div_le_one hpos).mpr hle)]
  rw [hvote, hcwv]
  rfl

/-- Witness for C9 at the Scenario-A votes (0, 0.9), (0, 0.8), (1, 0.7)
with unit weights: both implementations return the same class and
confidence. -/
theorem C9_voting_paths_agree_witness :
    (WeightedVoter.vote [("a", (0, 9/10)), ("b", (0, 8/10)), ("c", (1, 7/10))]
        [("a", 1), ("b", 1), ("c", 1)]).toOption.map
        (fun r => (r.predicted_class, r.confidence))
      = some (compute_weighted_vote [("a", (0, 9/10)), ("b", (0, 8/10)), ("c", (1, 7/10))]
          [("a", 1), ("b", 1), ("c", 1)]) :=
  C9_voting_paths_agree
    [("a", (0, 9/10)), ("b", (0, 8/10)), ("c", (1, 7/10))]
    [("a", 1), ("b", 1), ("c", 1)]
    (by simp)
    (by constructor <;> intro k hk <;> simp [dkeys] at hk ⊢ <;> tauto)
    (by
      intro p hp
      simp at hp
      rcases hp with h | h | h <;> subst h <;> norm_num)
    (by
      intro q hq
      simp at hq
      rcases hq with h | h | h <;> subst h <;> norm_num)
    (by norm_num [totalWeightedScore, dget?])
